import Mathlib

/-!
Verification of the batch-orchestration core of `acars_parser_gui_dnd_fix2.py`
(plane-watch/acars-parser).

Strings are embedded as `List Char` (`Str`).  Python's `os.path` functions are
modelled with POSIX semantics (`posixpath`), which is the platform-dependent
meaning of `os.path.basename` / `splitext` / `dirname` / `join` used by
`App._output_path_for`.  `str.isspace` is modelled on the ASCII whitespace
characters.  External effects (launching the tool, checking the filesystem)
are modelled by an explicit environment `Env` supplying the process result for
an argument vector and the file-existence predicate queried by
`os.path.exists`.
-/

namespace AcarsGui

/-- A Python string, embedded as a list of characters. -/
abbrev Str := List Char

/-- Embed a Lean string literal as a `Str`. -/
def str (s : String) : Str := s.data

/-- `str.isspace`, restricted to the ASCII whitespace characters. -/
def pyIsSpace (c : Char) : Bool :=
  c = ' ' || c = '\t' || c = '\n' || c = '\r' || c = '\x0b' || c = '\x0c'

/-- Python `s.strip()`: remove leading and trailing whitespace. -/
def pyStrip (s : Str) : Str :=
  ((s.dropWhile pyIsSpace).reverse.dropWhile pyIsSpace).reverse

/-- `posixpath.basename`: the part of the path after the last `'/'`
(the whole path when there is no `'/'`). -/
def basename (p : Str) : Str :=
  (p.reverse.takeWhile (fun c => ¬ c = '/')).reverse

/-- `posixpath.dirname`: everything up to the last `'/'`; trailing slashes are
stripped unless the head consists only of slashes. -/
def dirname (p : Str) : Str :=
  let head := (p.reverse.dropWhile (fun c => ¬ c = '/')).reverse
  if head ≠ [] ∧ ¬ head.all (fun c => c = '/') then
    (head.reverse.dropWhile (fun c => c = '/')).reverse
  else head

/-- `posixpath.splitext` on a slash-free string (the source only applies it to
the result of `os.path.basename`): split off the suffix after the last dot,
unless the characters before that dot are all dots (hidden files). -/
def splitext (q : Str) : Str × Str :=
  let rev := q.reverse
  let revExt := rev.takeWhile (fun c => ¬ c = '.')
  match rev.drop revExt.length with
  | [] => (q, [])
  | _ :: revPre =>
    if revPre.all (fun c => c = '.') then (q, [])
    else (revPre.reverse, '.' :: revExt.reverse)

/-- `posixpath.join` for two components. -/
def pjoin (a b : Str) : Str :=
  if b.head? = some '/' then b
  else if a = [] ∨ a.getLast? = some '/' then a ++ b
  else a ++ '/' :: b

/-- The stem of the input path: `os.path.splitext(os.path.basename(inp))[0]`. -/
def stemOf (inp : Str) : Str := (splitext (basename inp)).1

/-- `App._output_path_for`: derive the output path for an input path, given the
contents of the output-directory field (`self.outdir_var`). -/
def output_path_for (outdirVar inp : Str) : Str :=
  let outname := stemOf inp ++ str ".json"
  let outdir := pyStrip outdirVar
  pjoin (if outdir ≠ [] then outdir else dirname inp) outname

/-! ## The drag-and-drop payload splitter (`_split_dnd_files`) -/

/-- The trailing normalisation of `_split_dnd_files`:
`p.replace('\\\\', '\\')`, collapsing doubled backslashes left to right. -/
def unescape : Str → Str
  | '\\' :: '\\' :: rest => '\\' :: unescape rest
  | c :: rest => c :: unescape rest
  | [] => []

/-- The character loop of `_split_dnd_files`: state `cur` (current token),
`inBrace`, and accumulator `out`, exactly as in the Python source. -/
def dndLoop : Str → Str → Bool → List Str → List Str
  | [], cur, _, out => if cur = [] then out else out ++ [cur]
  | c :: rest, cur, inBrace, out =>
    if c = '{' then dndLoop rest [] true out
    else if c = '}' then
      dndLoop rest [] false (if cur = [] then out else out ++ [cur])
    else if pyIsSpace c && !inBrace then
      dndLoop rest [] inBrace (if cur = [] then out else out ++ [cur])
    else dndLoop rest (cur ++ [c]) inBrace out

/-- `_split_dnd_files`: split the tkinterdnd2 payload string into file paths. -/
def split_dnd_files (data : Str) : List Str :=
  if data = [] then []
  else (dndLoop (pyStrip data) [] false []).map unescape

/-- A string containing no brace characters. -/
def noBrace (s : Str) : Bool := s.all fun c => c != '{' && c != '}'

/-! ## Configuration, invocation and the retry policy -/

/-- The run configuration read from the UI fields at the start of `run_queue`:
executable path, output-directory override and the three flag checkboxes. -/
structure Config where
  exe : Str
  outdir : Str
  pretty : Bool
  all : Bool
  stats : Bool

/-- The argument vector assembled in the worker:
`[exe, "extract", "-input", inp, "-output", outp]` followed by the optional
flags appended in source order. -/
def buildArgs (exe inp outp : Str) (cfg : Config) : List Str :=
  [exe, str "extract", str "-input", inp, str "-output", outp]
    ++ (if cfg.pretty then [str "-pretty"] else [])
    ++ (if cfg.all then [str "-all"] else [])
    ++ (if cfg.stats then [str "-stats"] else [])

/-- Boolean prefix test on character lists. -/
def listPrefixB : Str → Str → Bool
  | [], _ => true
  | _ :: _, [] => false
  | a :: as, b :: bs => a = b && listPrefixB as bs

/-- Python's substring operator `pat in hay`. -/
def strContains (pat : Str) : Str → Bool
  | [] => listPrefixB pat []
  | h :: t => listPrefixB pat (h :: t) || strContains pat t

/-- The exact marker string that triggers the fallback retry. -/
def statsMarker : Str := str "flag provided but not defined: -stats"

/-- The retry condition tested after the first run:
`rc != 0 and self.stats_var.get() and ("flag provided but not defined: -stats" in combined)`. -/
def shouldRetryWithoutStats (statsFlag : Bool) (rc : Int) (combined : Str) : Bool :=
  (rc != 0) && statsFlag && strContains statsMarker combined

/-! ## The batch orchestrator (`run_queue` worker) -/

/-- The observable result of one external process run: the combined
stdout/stderr text and the exit code. -/
structure RunResult where
  output : Str
  exitCode : Int
deriving DecidableEq

/-- The external world as seen by the worker: launching an argument vector
either raises (`Except.error` carries the exception message) or yields a
`RunResult`; `fileExists` is `os.path.exists`. -/
structure Env where
  exec : List Str → Except Str RunResult
  fileExists : Str → Bool

/-- The progress events appended by the worker, in order.  Terminal per-item
events carry the item's input path so that the queue order is observable. -/
inductive Event where
  | queueLen (n : Nat)
  | started (args : List Str)
  | outputChunk (s : Str)
  | fallbackNotice (args2 : List Str)
  | itemOk (inp outp : Str)
  | itemFail (inp : Str) (rc : Int) (outp : Str)
  | itemError (inp msg : Str)
  | batchDone
deriving DecidableEq

/-- The final `[OK]`/`[FAIL]` report of an item:
`if rc == 0 and os.path.exists(outp)` then OK else FAIL. -/
def finalEvent (env : Env) (inp outp : Str) (rc : Int) : Event :=
  if rc = 0 ∧ env.fileExists outp = true then .itemOk inp outp
  else .itemFail inp rc outp

/-- Everything one loop iteration of the worker produces for one item. -/
structure ItemRun where
  events : List Event
  terminal : Event
  invocations : List (List Str)
  finalRc : Option Int

/-- One iteration of the worker loop for input `inp`: resolve the output path,
build the invocation, run it, retry once without `-stats` when
`shouldRetryWithoutStats` holds, and report.  An exception anywhere inside the
`try` block (modelled by `Except.error`) yields the `[ERROR]` report. -/
def runItemCore (env : Env) (cfg : Config) (exe inp : Str) : ItemRun :=
  let outp := output_path_for cfg.outdir inp
  let args := buildArgs exe inp outp cfg
  match env.exec args with
  | .error m =>
      { events := [.started args, .itemError inp m]
        terminal := .itemError inp m
        invocations := [args]
        finalRc := none }
  | .ok r =>
      if shouldRetryWithoutStats cfg.stats r.exitCode r.output then
        let args2 := args.filter (fun a => a != str "-stats")
        match env.exec args2 with
        | .error m =>
            { events := [.started args, .outputChunk r.output, .fallbackNotice args2,
                         .itemError inp m]
              terminal := .itemError inp m
              invocations := [args, args2]
              finalRc := none }
        | .ok r2 =>
            { events := [.started args, .outputChunk r.output, .fallbackNotice args2,
                         .outputChunk r2.output, finalEvent env inp outp r2.exitCode]
              terminal := finalEvent env inp outp r2.exitCode
              invocations := [args, args2]
              finalRc := some r2.exitCode }
      else
        { events := [.started args, .outputChunk r.output, finalEvent env inp outp r.exitCode]
          terminal := finalEvent env inp outp r.exitCode
          invocations := [args]
          finalRc := some r.exitCode }

/-- The invocation built for an item, as the worker builds it. -/
def itemArgs (cfg : Config) (inp : Str) : List Str :=
  buildArgs (pyStrip cfg.exe) inp (output_path_for cfg.outdir inp) cfg

/-- `App.run_queue`: validate the executable field and the queue snapshot,
then (modelling the worker thread) process every snapshotted item in order and
finish with the "Done." event.  `none` models the early error-dialog returns
before any batch is started. -/
def run_queue (env : Env) (cfg : Config) (items : List Str) : Option (List Event) :=
  let exe := pyStrip cfg.exe
  if exe = [] then none
  else if env.fileExists exe = false then none
  else if items = [] then none
  else some (.queueLen items.length ::
    ((items.map fun inp => (runItemCore env cfg exe inp).events).flatten ++ [.batchDone]))

/-- Terminal per-item events: the `[OK]`, `[FAIL]` and `[ERROR]` reports. -/
def isItemResult : Event → Bool
  | .itemOk _ _ => true
  | .itemFail _ _ _ => true
  | .itemError _ _ => true
  | _ => false

/-- The batch-complete event. -/
def isBatchDone : Event → Bool
  | .batchDone => true
  | _ => false

/-- The input path an event reports on (`none` for non-terminal events). -/
def eventInput : Event → Option Str
  | .itemOk inp _ => some inp
  | .itemFail inp _ _ => some inp
  | .itemError inp _ => some inp
  | _ => none

/-- `cfg` with the stats checkbox cleared. -/
def noStats (cfg : Config) : Config :=
  { cfg with stats := false }

/-! ## Concrete environments used by witnesses and counterexamples -/

/-- An environment where every launch succeeds with exit code 0 and every
path exists. -/
def envSane : Env :=
  { exec := fun _ => .ok { output := [], exitCode := 0 }
    fileExists := fun _ => true }

/-- A plain configuration. -/
def cfgSane : Config :=
  { exe := str "e", outdir := [], pretty := true, all := true, stats := false }

/-- An environment where every launch succeeds with exit code 0 but no output
artifact ever exists. -/
def envMissing : Env :=
  { exec := fun _ => .ok { output := [], exitCode := 0 }
    fileExists := fun _ => false }

/-- An environment where launching any invocation mentioning `x.log` raises. -/
def envW5 : Env :=
  { exec := fun a => if (str "x.log") ∈ a then .error (str "launch failed")
      else .ok { output := [], exitCode := 0 }
    fileExists := fun _ => true }

/-- A configuration with the stats checkbox set. -/
def cfgC3 : Config :=
  { exe := str "e", outdir := [], pretty := false, all := false, stats := true }

/-- An environment where any invocation still carrying `-stats` fails with the
unsupported-flag marker and the retry without it succeeds. -/
def envC3 : Env :=
  { exec := fun a => if (str "-stats") ∈ a then .ok { output := statsMarker, exitCode := 1 }
      else .ok { output := [], exitCode := 0 }
    fileExists := fun _ => true }

/-! ## Definitions modelled from the specification's words

These second, claim-side definitions exist only to be compared with the
source-derived ones above. -/

/-- Modelled from the claim's words: the maximal runs of characters on which
`w` is false, in order ("outside braces maximal runs of non-whitespace
characters become tokens"). -/
def wordsBy (w : Char → Bool) : Str → List Str
  | [] => []
  | c :: rest =>
    if w c then wordsBy w rest
    else (c :: rest.takeWhile (fun d => !w d)) ::
      wordsBy w (rest.dropWhile (fun d => !w d))
  termination_by s => s.length
  decreasing_by
    all_goals simp_wf
    all_goals exact Nat.lt_succ_of_le (List.Sublist.length_le (List.dropWhile_sublist _))

/-- Modelled from the claim's words, fuelled so that it is structural: each
brace-delimited group is a single token (an empty group contributes none), and
outside braces each maximal run of non-whitespace characters is a token,
a run also ending at an opening brace. -/
def claimSplitGo (w : Char → Bool) : Nat → Str → List Str
  | 0, _ => []
  | _ + 1, [] => []
  | fuel + 1, c :: rest =>
    if c = '{' then
      let grp := rest.takeWhile (fun d => ¬ d = '}')
      let rest2 := (rest.dropWhile (fun d => ¬ d = '}')).drop 1
      (if grp = [] then [] else [grp]) ++ claimSplitGo w fuel rest2
    else if w c then claimSplitGo w fuel rest
    else
      (c :: rest.takeWhile (fun d => !w d && ¬ d = '{')) ::
        claimSplitGo w fuel (rest.dropWhile (fun d => !w d && ¬ d = '{'))

/-- Modelled from the claim's words: the token list the claim predicts for a
drag-and-drop payload. -/
def claimSplit (s : Str) : List Str := claimSplitGo pyIsSpace s.length s

/-- A character that extends a token run outside braces: not whitespace and
not a brace. -/
def isRunChar (d : Char) : Bool := !pyIsSpace d && d != '{' && d != '}'

/-- The part of a string after its last opening brace (the whole string when
it has none). -/
def afterLastOpen (s : Str) : Str :=
  (s.reverse.takeWhile (fun d => ¬ d = '{')).reverse

/-- Modelled from the amended claim's words, as a recursive-descent tokenizer
(deliberately structured unlike the source's character loop): an opening brace
starts a group running to the next closing brace (or the end of the payload);
the group becomes one token — the part after its last inner opening brace,
since an opening brace inside a group restarts it — and an empty group
contributes no token.  A closing brace outside a group ends the current run.
Whitespace outside groups separates runs.  A maximal run of non-whitespace,
non-brace characters becomes a token unless it is immediately followed by an
opening brace, in which case it is discarded. -/
def amendedSplit : Str → List Str
  | [] => []
  | c :: rest =>
    if c = '{' then
      let tok := afterLastOpen (rest.takeWhile (fun d => ¬ d = '}'))
      (if tok = [] then [] else [tok]) ++
        amendedSplit ((rest.dropWhile (fun d => ¬ d = '}')).drop 1)
    else if c = '}' then amendedSplit rest
    else if pyIsSpace c then amendedSplit rest
    else
      let after := rest.dropWhile isRunChar
      if after.head? = some '{' then amendedSplit after
      else (c :: rest.takeWhile isRunChar) :: amendedSplit after
  termination_by s => s.length
  decreasing_by
    all_goals simp_wf
    all_goals first
      | exact Nat.lt_succ_of_le (List.Sublist.length_le
          ((List.drop_sublist _ _).trans (List.dropWhile_sublist _)))
      | exact Nat.lt_succ_of_le (Nat.le_trans (Nat.sub_le _ _)
          (List.Sublist.length_le (List.dropWhile_sublist _)))
      | exact Nat.lt_succ_of_le (List.Sublist.length_le (List.dropWhile_sublist _))

/-- Modelled from the claim's words: whether an optional flag string is
enabled by the configuration. -/
def flagOn (cfg : Config) (f : Str) : Bool :=
  if f = str "-pretty" then cfg.pretty
  else if f = str "-all" then cfg.all
  else if f = str "-stats" then cfg.stats
  else false

/-! ## Helper lemmas -/

lemma listPrefixB_iff : ∀ (pat s : Str), listPrefixB pat s = true ↔ ∃ t, pat ++ t = s
  | [], s => by simp [listPrefixB]
  | _ :: _, [] => by simp [listPrefixB]
  | a :: as, b :: bs => by
    simp only [listPrefixB, Bool.and_eq_true, decide_eq_true_eq, listPrefixB_iff as bs,
      List.cons_append]
    constructor
    · rintro ⟨rfl, t, rfl⟩
      exact ⟨t, rfl⟩
    · rintro ⟨t, h⟩
      injection h with h1 h2
      exact ⟨h1, t, h2⟩

lemma strContains_iff (pat : Str) :
    ∀ hay, strContains pat hay = true ↔ ∃ s t, s ++ pat ++ t = hay
  | [] => by
    simp only [strContains, listPrefixB_iff]
    constructor
    · rintro ⟨t, h⟩
      exact ⟨[], t, by simpa using h⟩
    · rintro ⟨s, t, h⟩
      rcases List.append_eq_nil.mp h with ⟨h1, rfl⟩
      rcases List.append_eq_nil.mp h1 with ⟨rfl, rfl⟩
      exact ⟨[], rfl⟩
  | h :: tl => by
    simp only [strContains, Bool.or_eq_true, listPrefixB_iff, strContains_iff pat tl]
    constructor
    · rintro (⟨t, ht⟩ | ⟨s, t, ht⟩)
      · exact ⟨[], t, by simpa using ht⟩
      · exact ⟨h :: s, t, by simp [List.cons_append, ht]⟩
    · rintro ⟨s, t, ht⟩
      cases s with
      | nil => exact Or.inl ⟨t, by simpa using ht⟩
      | cons s0 s' =>
        simp only [List.cons_append] at ht
        injection ht with h1 h2
        exact Or.inr ⟨s', t, h2⟩

lemma pyStrip_nil : pyStrip [] = [] := rfl

lemma pjoin_nil (b : Str) : pjoin [] b = b := by
  unfold pjoin
  by_cases h : b.head? = some '/'
  · rw [if_pos h]
  · rw [if_neg h, if_pos (Or.inl rfl), List.nil_append]

lemma slash_not_mem_basename (p : Str) : '/' ∉ basename p := by
  unfold basename
  intro h
  rw [List.mem_reverse] at h
  have h2 := List.mem_takeWhile_imp h
  simp at h2

lemma splitext_fst_subset (q : Str) : ∀ x ∈ (splitext q).1, x ∈ q := by
  intro x hx
  unfold splitext at hx
  simp only at hx
  split at hx
  · exact hx
  · rename_i c0 revPre heq
    split at hx
    · exact hx
    · simp only at hx
      rw [List.mem_reverse] at hx
      have h1 : x ∈ c0 :: revPre := List.mem_cons_of_mem _ hx
      rw [← heq] at h1
      have h2 := List.drop_subset _ _ h1
      rwa [List.mem_reverse] at h2

lemma head?_outname_ne_slash (p : Str) : (stemOf p ++ str ".json").head? ≠ some '/' := by
  cases h : stemOf p with
  | nil => decide
  | cons c rest =>
    simp only [List.cons_append, List.head?_cons, ne_eq, Option.some.injEq]
    intro hc
    have hmem : '/' ∈ stemOf p := by
      rw [h, ← hc]
      exact List.mem_cons_self _ _
    exact slash_not_mem_basename p (splitext_fst_subset (basename p) _ hmem)

lemma flagOn_pretty (cfg : Config) : flagOn cfg (str "-pretty") = cfg.pretty := by
  unfold flagOn
  rw [if_pos rfl]

lemma flagOn_all (cfg : Config) : flagOn cfg (str "-all") = cfg.all := by
  unfold flagOn
  rw [if_neg (by decide), if_pos rfl]

lemma flagOn_stats (cfg : Config) : flagOn cfg (str "-stats") = cfg.stats := by
  unfold flagOn
  rw [if_neg (by decide), if_neg (by decide), if_pos rfl]

/-! ## Claim theorems: path resolution and invocation -/

/-- C9: output-path resolution is not injective — two distinct input paths
with the same base name and a non-empty output-directory override resolve to
the same output path. -/
theorem C9_output_collision :
    ∃ p1 p2 d : Str, p1 ≠ p2 ∧ pyStrip d ≠ [] ∧
      output_path_for d p1 = output_path_for d p2 := by
  refine ⟨str "d1/a.log", str "d2/a.log", str "out", ?_, ?_, ?_⟩ <;> decide

/-- C7, counterexample: for an input path without a directory component the
resolved output path is `"a.json"`, not `dirname(p) + "/" + stem(p) + ".json"`
(which is `"/a.json"` since `dirname("a.log") = ""`). -/
theorem C7_counterexample :
    output_path_for (str "") (str "a.log") = str "a.json" ∧
      str "a.json" ≠ dirname (str "a.log") ++ str "/" ++ stemOf (str "a.log") ++ str ".json" := by
  decide

/-- C7, amended: the resolved output path is `stem(p) + ".json"` joined (with
POSIX `os.path.join` semantics) onto the trimmed override when that is
non-empty and onto `dirname(p)` otherwise; a whitespace-only override is
treated as absent, and the plain concatenation
`dirname(p) + "/" + stem(p) + ".json"` is correct exactly when `dirname(p)` is
non-empty and does not end in a slash (for a bare file name the result is
`stem(p) + ".json"` with no leading slash). -/
theorem C7_output_path (p d : Str) :
    (pyStrip d = [] → output_path_for d p = output_path_for [] p) ∧
    (pyStrip d ≠ [] → output_path_for d p = pjoin (pyStrip d) (stemOf p ++ str ".json")) ∧
    (pyStrip d = [] → dirname p ≠ [] → (dirname p).getLast? ≠ some '/' →
      output_path_for d p = dirname p ++ str "/" ++ stemOf p ++ str ".json") ∧
    (pyStrip d = [] → dirname p = [] →
      output_path_for d p = stemOf p ++ str ".json") := by
  refine ⟨?_, ?_, ?_, ?_⟩
  · intro h
    simp [output_path_for, h, pyStrip_nil]
  · intro h
    simp [output_path_for, h]
  · intro h h1 h2
    simp only [output_path_for, h, ne_eq, not_true_eq_false, if_neg, ite_false,
      not_false_eq_true, if_false]
    unfold pjoin
    rw [if_neg (head?_outname_ne_slash p), if_neg (not_or.mpr ⟨h1, h2⟩)]
    simp [show str "/" = ['/'] from rfl, List.append_assoc]
  · intro h h1
    simp [output_path_for, h, h1, pjoin_nil]

/-- Witness for C7_output_path at concrete inputs. -/
theorem C7_output_path_witness :
    (output_path_for (str " ") (str "d/a.b.log") = output_path_for [] (str "d/a.b.log")) ∧
    (output_path_for (str " out ") (str "d/a.b.log") =
      pjoin (pyStrip (str " out ")) (stemOf (str "d/a.b.log") ++ str ".json")) ∧
    (output_path_for (str "") (str "d/a.b.log") =
      dirname (str "d/a.b.log") ++ str "/" ++ stemOf (str "d/a.b.log") ++ str ".json") ∧
    (output_path_for (str "") (str "a.log") = stemOf (str "a.log") ++ str ".json") :=
  ⟨(C7_output_path (str "d/a.b.log") (str " ")).1 (by decide),
   (C7_output_path (str "d/a.b.log") (str " out ")).2.1 (by decide),
   (C7_output_path (str "d/a.b.log") (str "")).2.2.1 (by decide) (by decide) (by decide),
   (C7_output_path (str "a.log") (str "")).2.2.2 (by decide) (by decide)⟩

/-- C2: the fallback retry condition holds iff the stats flag was requested,
the first run's exit code is non-zero, and the captured combined output
contains the exact literal marker substring. -/
theorem C2_retry_condition (statsFlag : Bool) (rc : Int) (combined : Str) :
    shouldRetryWithoutStats statsFlag rc combined = true ↔
      (statsFlag = true ∧ rc ≠ 0 ∧ ∃ s t, s ++ statsMarker ++ t = combined) := by
  unfold shouldRetryWithoutStats
  simp only [Bool.and_eq_true, bne_iff_ne, ne_eq, strContains_iff]
  tauto

/-- C6: the built invocation is the fixed head
`[exe, "extract", "-input", in, "-output", out]` followed by the optional
flags filtered, in the fixed order `-pretty`, `-all`, `-stats`, from the
configuration booleans. -/
theorem C6_invocation_vector (exe inp outp : Str) (cfg : Config) :
    buildArgs exe inp outp cfg =
      [exe, str "extract", str "-input", inp, str "-output", outp] ++
        ([str "-pretty", str "-all", str "-stats"].filter (flagOn cfg)) := by
  obtain ⟨e, o, pr, al, st⟩ := cfg
  cases pr <;> cases al <;> cases st <;>
    simp [buildArgs, List.filter_cons, flagOn_pretty, flagOn_all, flagOn_stats]

/-! ## Helper lemmas about the orchestrator -/

@[simp] lemma isItemResult_queueLen (n : Nat) : isItemResult (.queueLen n) = false := rfl
@[simp] lemma isItemResult_started (args : List Str) : isItemResult (.started args) = false := rfl
@[simp] lemma isItemResult_outputChunk (s : Str) : isItemResult (.outputChunk s) = false := rfl
@[simp] lemma isItemResult_fallbackNotice (a : List Str) :
    isItemResult (.fallbackNotice a) = false := rfl
@[simp] lemma isItemResult_itemOk (inp outp : Str) : isItemResult (.itemOk inp outp) = true := rfl
@[simp] lemma isItemResult_itemFail (inp : Str) (rc : Int) (outp : Str) :
    isItemResult (.itemFail inp rc outp) = true := rfl
@[simp] lemma isItemResult_itemError (inp msg : Str) :
    isItemResult (.itemError inp msg) = true := rfl
@[simp] lemma isItemResult_batchDone : isItemResult .batchDone = false := rfl

@[simp] lemma isBatchDone_queueLen (n : Nat) : isBatchDone (.queueLen n) = false := rfl
@[simp] lemma isBatchDone_started (args : List Str) : isBatchDone (.started args) = false := rfl
@[simp] lemma isBatchDone_outputChunk (s : Str) : isBatchDone (.outputChunk s) = false := rfl
@[simp] lemma isBatchDone_fallbackNotice (a : List Str) :
    isBatchDone (.fallbackNotice a) = false := rfl
@[simp] lemma isBatchDone_itemOk (inp outp : Str) : isBatchDone (.itemOk inp outp) = false := rfl
@[simp] lemma isBatchDone_itemFail (inp : Str) (rc : Int) (outp : Str) :
    isBatchDone (.itemFail inp rc outp) = false := rfl
@[simp] lemma isBatchDone_itemError (inp msg : Str) :
    isBatchDone (.itemError inp msg) = false := rfl
@[simp] lemma isBatchDone_batchDone : isBatchDone .batchDone = true := rfl

@[simp] lemma eventInput_queueLen (n : Nat) : eventInput (.queueLen n) = none := rfl
@[simp] lemma eventInput_started (args : List Str) : eventInput (.started args) = none := rfl
@[simp] lemma eventInput_outputChunk (s : Str) : eventInput (.outputChunk s) = none := rfl
@[simp] lemma eventInput_fallbackNotice (a : List Str) :
    eventInput (.fallbackNotice a) = none := rfl
@[simp] lemma eventInput_itemOk (inp outp : Str) : eventInput (.itemOk inp outp) = some inp := rfl
@[simp] lemma eventInput_itemFail (inp : Str) (rc : Int) (outp : Str) :
    eventInput (.itemFail inp rc outp) = some inp := rfl
@[simp] lemma eventInput_itemError (inp msg : Str) :
    eventInput (.itemError inp msg) = some inp := rfl
@[simp] lemma eventInput_batchDone : eventInput .batchDone = none := rfl

@[simp] lemma isItemResult_finalEvent (env : Env) (inp outp : Str) (rc : Int) :
    isItemResult (finalEvent env inp outp rc) = true := by
  unfold finalEvent
  split <;> rfl

@[simp] lemma isBatchDone_finalEvent (env : Env) (inp outp : Str) (rc : Int) :
    isBatchDone (finalEvent env inp outp rc) = false := by
  unfold finalEvent
  split <;> rfl

@[simp] lemma eventInput_finalEvent (env : Env) (inp outp : Str) (rc : Int) :
    eventInput (finalEvent env inp outp rc) = some inp := by
  unfold finalEvent
  split <;> rfl

lemma runItemCore_events_facts (env : Env) (cfg : Config) (exe inp : Str) :
    (runItemCore env cfg exe inp).events.filter isItemResult =
        [(runItemCore env cfg exe inp).terminal] ∧
    (runItemCore env cfg exe inp).events.filter isBatchDone = [] ∧
    eventInput (runItemCore env cfg exe inp).terminal = some inp ∧
    (∀ e ∈ (runItemCore env cfg exe inp).events, ∀ p, eventInput e = some p → p = inp) := by
  rcases h : env.exec (buildArgs exe inp (output_path_for cfg.outdir inp) cfg) with m | r
  · simp [runItemCore, h, List.filter_cons]
  · by_cases hr : shouldRetryWithoutStats cfg.stats r.exitCode r.output
    · rcases h2 : env.exec ((buildArgs exe inp (output_path_for cfg.outdir inp) cfg).filter
          (fun a => a != str "-stats")) with m2 | r2
      · simp [runItemCore, h, hr, h2, List.filter_cons]
      · simp [runItemCore, h, hr, h2, List.filter_cons]
    · simp [runItemCore, h, hr, List.filter_cons]

lemma flatten_map_singleton {α β : Type} (f : α → β) :
    ∀ l : List α, (l.map fun x => [f x]).flatten = l.map f
  | [] => rfl
  | x :: xs => by simp [flatten_map_singleton f xs]

lemma run_queue_some (env : Env) (cfg : Config) (items : List Str) (evs : List Event)
    (h : run_queue env cfg items = some evs) :
    evs = .queueLen items.length ::
      ((items.map fun inp => (runItemCore env cfg (pyStrip cfg.exe) inp).events).flatten
        ++ [.batchDone]) := by
  simp only [run_queue] at h
  split at h
  · exact absurd h (by simp)
  · split at h
    · exact absurd h (by simp)
    · split at h
      · exact absurd h (by simp)
      · injection h with h
        exact h.symm

lemma run_queue_itemResults (env : Env) (cfg : Config) (items : List Str) (evs : List Event)
    (h : run_queue env cfg items = some evs) :
    evs.filter isItemResult =
      items.map (fun inp => (runItemCore env cfg (pyStrip cfg.exe) inp).terminal) := by
  rw [run_queue_some env cfg items evs h]
  simp only [List.filter_cons, List.filter_append, List.filter_flatten, List.map_map,
    isItemResult_queueLen, isItemResult_batchDone, Bool.false_eq_true, if_false,
    List.filter_nil, List.append_nil, Function.comp_def]
  have heach : (items.map fun inp =>
      ((runItemCore env cfg (pyStrip cfg.exe) inp).events.filter isItemResult)) =
      items.map fun inp => [(runItemCore env cfg (pyStrip cfg.exe) inp).terminal] := by
    apply List.map_congr_left
    intro inp _
    exact (runItemCore_events_facts env cfg (pyStrip cfg.exe) inp).1
  rw [heach, flatten_map_singleton]

lemma terminal_of_exec_error (env : Env) (cfg : Config) (inp msg : Str)
    (h : env.exec (itemArgs cfg inp) = .error msg) :
    (runItemCore env cfg (pyStrip cfg.exe) inp).terminal = .itemError inp msg := by
  unfold itemArgs at h
  simp [runItemCore, h]

/-! ## Claim theorems: orchestrator behaviour -/

lemma finalEvent_eq_itemOk_iff (env : Env) (inp outp : Str) (rc : Int) :
    finalEvent env inp outp rc = .itemOk inp outp ↔
      (rc = 0 ∧ env.fileExists outp = true) := by
  unfold finalEvent
  split
  · rename_i hc
    simp [hc.1, hc.2]
  · rename_i hc
    constructor
    · intro hx
      exact Event.noConfusion hx
    · intro hx
      exact absurd hx hc

lemma finalEvent_eq_itemFail (env : Env) (inp outp : Str) (rc : Int)
    (hfe : env.fileExists outp = false) :
    finalEvent env inp outp rc = .itemFail inp rc outp := by
  unfold finalEvent
  rw [if_neg]
  rintro ⟨_, hf⟩
  rw [hfe] at hf
  exact Bool.noConfusion hf

/-- C1: for every item the terminal report is the success report (with the
resolved output path) iff the item's final exit code is zero and the resolved
output path exists; in particular a zero exit with a missing artifact is
reported with the failure event. -/
theorem C1_success_criterion (env : Env) (cfg : Config) (exe inp : Str) :
    ((runItemCore env cfg exe inp).terminal =
        .itemOk inp (output_path_for cfg.outdir inp) ↔
      (runItemCore env cfg exe inp).finalRc = some 0 ∧
        env.fileExists (output_path_for cfg.outdir inp) = true) ∧
    ((runItemCore env cfg exe inp).finalRc = some 0 →
      env.fileExists (output_path_for cfg.outdir inp) = false →
      (runItemCore env cfg exe inp).terminal =
        .itemFail inp 0 (output_path_for cfg.outdir inp)) := by
  rcases h : env.exec (buildArgs exe inp (output_path_for cfg.outdir inp) cfg) with m | r
  · have ht : (runItemCore env cfg exe inp).terminal = .itemError inp m := by
      simp [runItemCore, h]
    have hrc : (runItemCore env cfg exe inp).finalRc = none := by
      simp [runItemCore, h]
    rw [ht, hrc]
    refine ⟨⟨fun hx => Event.noConfusion hx, fun hx => Option.noConfusion hx.1⟩, ?_⟩
    intro h0
    exact Option.noConfusion h0
  · by_cases hr : shouldRetryWithoutStats cfg.stats r.exitCode r.output
    · rcases h2 : env.exec ((buildArgs exe inp (output_path_for cfg.outdir inp) cfg).filter
          (fun a => a != str "-stats")) with m2 | r2
      · have ht : (runItemCore env cfg exe inp).terminal = .itemError inp m2 := by
          simp [runItemCore, h, hr, h2]
        have hrc : (runItemCore env cfg exe inp).finalRc = none := by
          simp [runItemCore, h, hr, h2]
        rw [ht, hrc]
        refine ⟨⟨fun hx => Event.noConfusion hx, fun hx => Option.noConfusion hx.1⟩, ?_⟩
        intro h0
        exact Option.noConfusion h0
      · have ht : (runItemCore env cfg exe inp).terminal =
            finalEvent env inp (output_path_for cfg.outdir inp) r2.exitCode := by
          simp [runItemCore, h, hr, h2]
        have hrc : (runItemCore env cfg exe inp).finalRc = some r2.exitCode := by
          simp [runItemCore, h, hr, h2]
        rw [ht, hrc]
        constructor
        · rw [finalEvent_eq_itemOk_iff]
          simp
        · intro h0 hfe
          injection h0 with h0
          rw [h0]
          exact finalEvent_eq_itemFail env inp _ 0 hfe
    · have ht : (runItemCore env cfg exe inp).terminal =
          finalEvent env inp (output_path_for cfg.outdir inp) r.exitCode := by
        simp [runItemCore, h, hr]
      have hrc : (runItemCore env cfg exe inp).finalRc = some r.exitCode := by
        simp [runItemCore, h, hr]
      rw [ht, hrc]
      constructor
      · rw [finalEvent_eq_itemOk_iff]
        simp
      · intro h0 hfe
        injection h0 with h0
        rw [h0]
        exact finalEvent_eq_itemFail env inp _ 0 hfe

/-- Witness for C1_success_criterion: exit code 0 but the output artifact is
missing, so the item is reported as a failure. -/
theorem C1_success_criterion_witness :
    (runItemCore envMissing cfgSane (str "e") (str "a.log")).terminal =
      .itemFail (str "a.log") 0 (output_path_for cfgSane.outdir (str "a.log")) :=
  (C1_success_criterion envMissing cfgSane (str "e") (str "a.log")).2 (by decide) (by decide)

/-- C4: a batch that starts over N snapshotted items emits exactly N terminal
per-item events, one per item in queue order, and exactly one batch-complete
event, which comes last. -/
theorem C4_batch_events (env : Env) (cfg : Config) (items : List Str) (evs : List Event)
    (h : run_queue env cfg items = some evs) :
    (evs.filter isItemResult).map eventInput = items.map some ∧
    (evs.filter isBatchDone).length = 1 ∧
    evs.getLast? = some .batchDone := by
  refine ⟨?_, ?_, ?_⟩
  · rw [run_queue_itemResults env cfg items evs h, List.map_map]
    apply List.map_congr_left
    intro inp _
    exact (runItemCore_events_facts env cfg (pyStrip cfg.exe) inp).2.2.1
  · rw [run_queue_some env cfg items evs h]
    simp only [List.filter_cons, List.filter_append, List.filter_flatten, List.map_map,
      isBatchDone_queueLen, isBatchDone_batchDone, Bool.false_eq_true, if_false, if_true,
      List.filter_nil, Function.comp_def]
    have heach : (items.map fun inp =>
        ((runItemCore env cfg (pyStrip cfg.exe) inp).events.filter isBatchDone)) =
        items.map fun _ => ([] : List Event) := by
      apply List.map_congr_left
      intro inp _
      exact (runItemCore_events_facts env cfg (pyStrip cfg.exe) inp).2.1
    rw [heach]
    simp
  · rw [run_queue_some env cfg items evs h, ← List.cons_append]
    exact List.getLast?_concat _

/-- Witness for C4_batch_events at a concrete one-item batch. -/
theorem C4_batch_events_witness :
    ((((run_queue envSane cfgSane [str "a.log"]).getD []).filter isItemResult).map eventInput
        = [str "a.log"].map some) ∧
    ((((run_queue envSane cfgSane [str "a.log"]).getD []).filter isBatchDone).length = 1) ∧
    (((run_queue envSane cfgSane [str "a.log"]).getD []).getLast? = some .batchDone) :=
  C4_batch_events envSane cfgSane [str "a.log"]
    ((run_queue envSane cfgSane [str "a.log"]).getD []) rfl

/-- C5: a process-launch failure for one item is reported as that item's
terminal event, carrying the exception message, and the batch still emits a
terminal event for every item — one failure never aborts the batch. -/
theorem C5_launch_failure (env : Env) (cfg : Config) (items : List Str) (evs : List Event)
    (i : Nat) (msg : Str) (h : run_queue env cfg items = some evs) (hi : i < items.length)
    (hl : env.exec (itemArgs cfg items[i]) = .error msg) :
    (evs.filter isItemResult).length = items.length ∧
    (evs.filter isItemResult)[i]? = some (.itemError items[i] msg) := by
  have hfilter := run_queue_itemResults env cfg items evs h
  constructor
  · rw [hfilter, List.length_map]
  · rw [hfilter, List.getElem?_map, List.getElem?_eq_getElem hi]
    simp only [Option.map_some']
    rw [terminal_of_exec_error env cfg items[i] msg hl]

/-- Witness for C5_launch_failure: first item's launch fails, yet both items
get terminal events. -/
theorem C5_launch_failure_witness :
    ((((run_queue envW5 cfgSane [str "x.log", str "y.log"]).getD []).filter
        isItemResult).length = 2) ∧
    ((((run_queue envW5 cfgSane [str "x.log", str "y.log"]).getD []).filter
        isItemResult)[0]? = some (.itemError (str "x.log") (str "launch failed"))) :=
  C5_launch_failure envW5 cfgSane [str "x.log", str "y.log"]
    ((run_queue envW5 cfgSane [str "x.log", str "y.log"]).getD []) 0 (str "launch failed")
    rfl (by decide) rfl

/-- C8: a batch run only reports on the snapshot passed to it at start time —
every terminal event's input path is a member of that snapshot, so paths
enqueued later never appear in the run's events. -/
theorem C8_snapshot (env : Env) (cfg : Config) (items : List Str) (evs : List Event)
    (e : Event) (p : Str) (h : run_queue env cfg items = some evs) (he : e ∈ evs)
    (hp : eventInput e = some p) :
    p ∈ items := by
  rw [run_queue_some env cfg items evs h] at he
  rcases List.mem_cons.mp he with rfl | he2
  · simp at hp
  · rcases List.mem_append.mp he2 with he3 | he4
    · rcases List.mem_flatten.mp he3 with ⟨l, hl, hel⟩
      rcases List.mem_map.mp hl with ⟨inp, hinp, rfl⟩
      have := (runItemCore_events_facts env cfg (pyStrip cfg.exe) inp).2.2.2 e hel p hp
      rwa [this]
    · rcases List.mem_singleton.mp he4 with rfl
      simp at hp

/-- Witness for C8_snapshot: the success event of a one-item batch reports on
the snapshotted item. -/
theorem C8_snapshot_witness : str "a.log" ∈ [str "a.log"] :=
  C8_snapshot envSane cfgSane [str "a.log"]
    ((run_queue envSane cfgSane [str "a.log"]).getD [])
    (.itemOk (str "a.log") (str "a.json")) (str "a.log") rfl (by decide) rfl

/-! ## C3: the retry invocation -/

lemma getLast_outname (p : Str) : (stemOf p ++ str ".json").getLast? = some 'n' := by
  rw [List.getLast?_append]
  rfl

lemma pjoin_getLast (a b : Str) (c : Char) (hb : b.getLast? = some c) :
    (pjoin a b).getLast? = some c := by
  unfold pjoin
  split
  · exact hb
  · split
    · rw [List.getLast?_append, hb]
      rfl
    · rw [← List.singleton_append, List.getLast?_append, List.getLast?_append, hb]
      rfl

lemma output_path_getLast (d p : Str) : (output_path_for d p).getLast? = some 'n' := by
  show (pjoin (if pyStrip d ≠ [] then pyStrip d else dirname p)
    (stemOf p ++ str ".json")).getLast? = some 'n'
  exact pjoin_getLast _ _ _ (getLast_outname p)

lemma output_path_ne_stats (d p : Str) : output_path_for d p ≠ str "-stats" := by
  intro hx
  have h1 := output_path_getLast d p
  rw [hx] at h1
  exact absurd h1 (by decide)

lemma filter_stats_buildArgs (exe inp outp : Str) (cfg : Config)
    (hx : exe ≠ str "-stats") (hi : inp ≠ str "-stats") (ho : outp ≠ str "-stats") :
    (buildArgs exe inp outp cfg).filter (fun a => a != str "-stats") =
      buildArgs exe inp outp (noStats cfg) := by
  have hx' : (exe != str "-stats") = true := bne_iff_ne.mpr hx
  have hi' : (inp != str "-stats") = true := bne_iff_ne.mpr hi
  have ho' : (outp != str "-stats") = true := bne_iff_ne.mpr ho
  have h1 : ((str "extract") != str "-stats") = true := by decide
  have h2 : ((str "-input") != str "-stats") = true := by decide
  have h3 : ((str "-output") != str "-stats") = true := by decide
  have h4 : ((str "-pretty") != str "-stats") = true := by decide
  have h5 : ((str "-all") != str "-stats") = true := by decide
  have h6 : ((str "-stats") != str "-stats") = false := by decide
  obtain ⟨e, o, pr, al, st⟩ := cfg
  cases pr <;> cases al <;> cases st <;>
    simp [buildArgs, noStats, List.filter_append, List.filter_cons, List.filter_nil,
      hx', hi', ho', h1, h2, h3, h4, h5, h6]

/-- C3, counterexample: for an input path that is literally `"-stats"` (a
file of that name can exist and be queued), the retry strips the input path
argument as well, so the retry invocation is not the original vector with
only the stats flag removed. -/
theorem C3_counterexample :
    ((runItemCore envC3 cfgC3 (str "e") (str "-stats")).invocations.length = 2) ∧
    ((runItemCore envC3 cfgC3 (str "e") (str "-stats")).invocations[1]? ≠
      some (buildArgs (str "e") (str "-stats")
        (output_path_for cfgC3.outdir (str "-stats")) (noStats cfgC3))) := by
  decide

/-- C3, amended: at most one retry is performed; the retry invocation is the
original argument vector with every argument equal to the string `"-stats"`
removed (order preserved), which — whenever neither the executable path nor
the input path is itself the literal `"-stats"` — is exactly the original
vector with only the stats flag removed; and the item's final exit code is
the second run's exit code. -/
theorem C3_retry_shape (env : Env) (cfg : Config) (exe inp : Str)
    (hx : exe ≠ str "-stats") (hi : inp ≠ str "-stats")
    (ht : (runItemCore env cfg exe inp).invocations.length = 2) :
    (runItemCore env cfg exe inp).invocations =
      [buildArgs exe inp (output_path_for cfg.outdir inp) cfg,
       buildArgs exe inp (output_path_for cfg.outdir inp) (noStats cfg)] ∧
    (runItemCore env cfg exe inp).finalRc =
      (match env.exec (buildArgs exe inp (output_path_for cfg.outdir inp) (noStats cfg)) with
        | .ok r2 => some r2.exitCode
        | .error _ => none) := by
  have hfilter := filter_stats_buildArgs exe inp (output_path_for cfg.outdir inp) cfg hx hi
      (output_path_ne_stats cfg.outdir inp)
  rcases h : env.exec (buildArgs exe inp (output_path_for cfg.outdir inp) cfg) with m | r
  · simp [runItemCore, h] at ht
  · by_cases hr : shouldRetryWithoutStats cfg.stats r.exitCode r.output
    · rcases h2 : env.exec ((buildArgs exe inp (output_path_for cfg.outdir inp) cfg).filter
          (fun a => a != str "-stats")) with m2 | r2
      · rw [hfilter] at h2
        exact ⟨by simp [runItemCore, h, hr, hfilter, h2],
               by simp [runItemCore, h, hr, hfilter, h2]⟩
      · rw [hfilter] at h2
        exact ⟨by simp [runItemCore, h, hr, hfilter, h2],
               by simp [runItemCore, h, hr, hfilter, h2]⟩
    · simp [runItemCore, h, hr] at ht

/-- Witness for C3_retry_shape: a triggered fallback on a normal input path
retries with exactly the original vector minus the stats flag and takes the
second run's exit code. -/
theorem C3_retry_shape_witness :
    ((runItemCore envC3 cfgC3 (str "e") (str "a.log")).invocations =
      [buildArgs (str "e") (str "a.log") (output_path_for cfgC3.outdir (str "a.log")) cfgC3,
       buildArgs (str "e") (str "a.log") (output_path_for cfgC3.outdir (str "a.log"))
         (noStats cfgC3)]) ∧
    ((runItemCore envC3 cfgC3 (str "e") (str "a.log")).finalRc = some 0) := by
  have h := C3_retry_shape envC3 cfgC3 (str "e") (str "a.log")
    (by decide) (by decide) (by decide)
  refine ⟨h.1, ?_⟩
  rw [h.2]
  decide

/-! ## C10: the drag-and-drop splitter -/

lemma allspace_split (s : Str) (h : s.all pyIsSpace = true) : split_dnd_files s = [] := by
  unfold split_dnd_files
  split
  · rfl
  · have h1 : s.dropWhile pyIsSpace = [] :=
      List.dropWhile_eq_nil_iff.mpr (List.all_eq_true.mp h)
    unfold pyStrip
    rw [h1]
    rfl

lemma dndLoop_out : ∀ (s : Str) (cur : Str) (b : Bool) (out : List Str),
    dndLoop s cur b out = out ++ dndLoop s cur b [] := by
  intro s
  induction s with
  | nil =>
    intro cur b out
    simp only [dndLoop]
    split <;> simp
  | cons c rest ih =>
    intro cur b out
    simp only [dndLoop, List.nil_append]
    split
    · exact ih [] true out
    · split
      · rw [ih [] false (if cur = [] then out else out ++ [cur]),
            ih [] false (if cur = [] then [] else [cur])]
        split <;> simp
      · split
        · rw [ih [] b (if cur = [] then out else out ++ [cur]),
              ih [] b (if cur = [] then [] else [cur])]
          split <;> simp
        · exact ih (cur ++ [c]) b out

lemma dndLoop_inBrace : ∀ (grp : Str), noBrace grp = true →
    ∀ (cur : Str) (out : List Str) (rest : Str),
    dndLoop (grp ++ '}' :: rest) cur true out =
      dndLoop rest [] false (if cur ++ grp = [] then out else out ++ [cur ++ grp]) := by
  intro grp
  induction grp with
  | nil =>
    intro _ cur out rest
    simp [dndLoop]
  | cons c grp ih =>
    intro hg cur out rest
    have hg' : noBrace grp = true := by
      unfold noBrace at hg ⊢
      rw [List.all_cons, Bool.and_eq_true] at hg
      exact hg.2
    have hc : ¬ c = '{' ∧ ¬ c = '}' := by
      unfold noBrace at hg
      rw [List.all_cons, Bool.and_eq_true, Bool.and_eq_true] at hg
      exact ⟨bne_iff_ne.mp hg.1.1, bne_iff_ne.mp hg.1.2⟩
    rw [List.cons_append]
    have step : dndLoop (c :: (grp ++ '}' :: rest)) cur true out =
        dndLoop (grp ++ '}' :: rest) (cur ++ [c]) true out := by
      simp [dndLoop, hc.1, hc.2]
    rw [step, ih hg' (cur ++ [c]) out rest]
    simp [List.append_assoc]

lemma brace_group_split (grp : Str) (hg : noBrace grp = true) :
    split_dnd_files (('{' :: grp) ++ ['}']) = if grp = [] then [] else [unescape grp] := by
  unfold split_dnd_files
  rw [if_neg (by simp)]
  have e2 : ('{' :: (grp ++ ['}'])).reverse = '}' :: (grp.reverse ++ ['{']) := by
    rw [List.reverse_cons, List.reverse_append]
    simp [List.append_assoc]
  have e4 : ('}' :: (grp.reverse ++ ['{'])).reverse = '{' :: (grp ++ ['}']) := by
    rw [List.reverse_cons, List.reverse_append]
    simp [List.append_assoc]
  have hstrip : pyStrip (('{' :: grp) ++ ['}']) = '{' :: (grp ++ ['}']) := by
    unfold pyStrip
    rw [List.cons_append, List.dropWhile_cons, if_neg (by decide)]
    rw [e2, List.dropWhile_cons, if_neg (by decide), e4]
  rw [hstrip]
  have step : dndLoop ('{' :: (grp ++ ['}'])) [] false [] =
      dndLoop (grp ++ ['}']) [] true [] := by
    simp [dndLoop]
  rw [step, show grp ++ ['}'] = grp ++ '}' :: [] from rfl, dndLoop_inBrace grp hg [] [] []]
  simp only [List.nil_append]
  split
  · rfl
  · rfl

lemma takeWhile_not_of_all (w : Char → Bool) (u : Str) (hu : u.all w = true) :
    u.takeWhile (fun d => !w d) = [] := by
  cases u with
  | nil => rfl
  | cons c rest =>
    rw [List.all_cons, Bool.and_eq_true] at hu
    rw [List.takeWhile_cons, if_neg]
    simp [hu.1]

lemma dropWhile_not_of_all (w : Char → Bool) (u : Str) (hu : u.all w = true) :
    u.dropWhile (fun d => !w d) = u := by
  cases u with
  | nil => rfl
  | cons c rest =>
    rw [List.all_cons, Bool.and_eq_true] at hu
    rw [List.dropWhile_cons, if_neg]
    simp [hu.1]

lemma wordsBy_allws (w : Char → Bool) : ∀ u : Str, u.all w = true → wordsBy w u = [] := by
  intro u
  induction u with
  | nil => intro _; simp [wordsBy]
  | cons c rest ih =>
    intro h
    rw [List.all_cons, Bool.and_eq_true] at h
    simp [wordsBy, h.1, ih h.2]

lemma wordsBy_dropWhile (w : Char → Bool) :
    ∀ s : Str, wordsBy w (s.dropWhile w) = wordsBy w s := by
  intro s
  induction s with
  | nil => rfl
  | cons c rest ih =>
    rw [List.dropWhile_cons]
    split
    · rename_i hw
      rw [ih]
      simp [wordsBy, hw]
    · rfl

lemma wordsBy_append_ws (w : Char → Bool) (u : Str) (hu : u.all w = true) :
    ∀ (n : Nat) (t : Str), t.length ≤ n → wordsBy w (t ++ u) = wordsBy w t := by
  intro n
  induction n with
  | zero =>
    intro t ht
    have h0 : t = [] := List.length_eq_zero.mp (Nat.le_zero.mp ht)
    subst h0
    rw [List.nil_append, wordsBy_allws w u hu]
    simp [wordsBy]
  | succ n ih =>
    intro t ht
    cases t with
    | nil =>
      rw [List.nil_append, wordsBy_allws w u hu]
      simp [wordsBy]
    | cons c rest =>
      have hrest : rest.length ≤ n := by
        simp only [List.length_cons] at ht
        omega
      rw [List.cons_append]
      by_cases hw : w c = true
      · have h1 : wordsBy w (c :: (rest ++ u)) = wordsBy w (rest ++ u) := by
          simp [wordsBy, hw]
        have h2 : wordsBy w (c :: rest) = wordsBy w rest := by
          simp [wordsBy, hw]
        rw [h1, h2]
        exact ih rest hrest
      · have hwf : w c = false := by
          revert hw
          cases w c <;> simp
        have l1 : wordsBy w (c :: (rest ++ u)) =
            (c :: ((rest ++ u).takeWhile (fun d => !w d))) ::
              wordsBy w ((rest ++ u).dropWhile (fun d => !w d)) := by
          simp [wordsBy, hwf]
        have l2 : wordsBy w (c :: rest) =
            (c :: (rest.takeWhile (fun d => !w d))) ::
              wordsBy w (rest.dropWhile (fun d => !w d)) := by
          simp [wordsBy, hwf]
        by_cases hd : rest.dropWhile (fun d => !w d) = []
        · have htw : rest.takeWhile (fun d => !w d) = rest := by
            have hh := List.takeWhile_append_dropWhile (fun d => !w d) rest
            rw [hd, List.append_nil] at hh
            exact hh
          have hlen : (rest.takeWhile (fun d => !w d)).length = rest.length := by
            rw [htw]
          have e1 : (rest ++ u).takeWhile (fun d => !w d) = rest := by
            rw [List.takeWhile_append, if_pos hlen, takeWhile_not_of_all w u hu,
              List.append_nil]
          have e2 : (rest ++ u).dropWhile (fun d => !w d) = u := by
            rw [List.dropWhile_append, if_pos (by rw [hd]; rfl),
              dropWhile_not_of_all w u hu]
          rw [l1, l2, e1, e2, htw, hd, wordsBy_allws w u hu]
          simp [wordsBy]
        · have hlen : ¬ (rest.takeWhile (fun d => !w d)).length = rest.length := by
            intro hx
            have hh := List.takeWhile_append_dropWhile (fun d => !w d) rest
            have hlen2 : (rest.takeWhile (fun d => !w d)).length +
                (rest.dropWhile (fun d => !w d)).length = rest.length := by
              rw [← List.length_append, hh]
            have h0 : (rest.dropWhile (fun d => !w d)).length = 0 := by omega
            exact hd (List.length_eq_zero.mp h0)
          have e1 : (rest ++ u).takeWhile (fun d => !w d) =
              rest.takeWhile (fun d => !w d) := by
            rw [List.takeWhile_append, if_neg hlen]
          have e2 : (rest ++ u).dropWhile (fun d => !w d) =
              rest.dropWhile (fun d => !w d) ++ u := by
            rw [List.dropWhile_append, if_neg]
            intro hx
            exact hd (List.isEmpty_iff.mp hx)
          rw [l1, l2, e1, e2]
          have hle : (rest.dropWhile (fun d => !w d)).length ≤ rest.length :=
            (List.dropWhile_sublist _).length_le
          rw [ih (rest.dropWhile (fun d => !w d)) (by omega)]

lemma rdrop_decomp (w : Char → Bool) (t : Str) :
    ∃ u : Str, t = (t.reverse.dropWhile w).reverse ++ u ∧ u.all w = true := by
  refine ⟨(t.reverse.takeWhile w).reverse, ?_, ?_⟩
  · conv_lhs => rw [← List.reverse_reverse t, ← List.takeWhile_append_dropWhile w t.reverse]
    rw [List.reverse_append]
  · rw [List.all_eq_true]
    intro x hx
    rw [List.mem_reverse] at hx
    exact List.mem_takeWhile_imp hx

lemma wordsBy_pyStrip (s : Str) : wordsBy pyIsSpace (pyStrip s) = wordsBy pyIsSpace s := by
  obtain ⟨u, hu, hall⟩ := rdrop_decomp pyIsSpace (s.dropWhile pyIsSpace)
  have h1 : wordsBy pyIsSpace (pyStrip s) = wordsBy pyIsSpace (pyStrip s ++ u) :=
    (wordsBy_append_ws pyIsSpace u hall (pyStrip s).length (pyStrip s) le_rfl).symm
  rw [h1]
  have h2 : pyStrip s ++ u = s.dropWhile pyIsSpace := by
    unfold pyStrip
    exact hu.symm
  rw [h2, wordsBy_dropWhile]

lemma dndLoop_noBrace : ∀ (n : Nat) (s : Str), s.length ≤ n → noBrace s = true →
    ∀ cur : Str, dndLoop s cur false [] =
      (if cur = [] then wordsBy pyIsSpace s
       else (cur ++ s.takeWhile (fun d => !pyIsSpace d)) ::
         wordsBy pyIsSpace (s.dropWhile (fun d => !pyIsSpace d))) := by
  intro n
  induction n with
  | zero =>
    intro s hs _ cur
    have h0 : s = [] := List.length_eq_zero.mp (Nat.le_zero.mp hs)
    subst h0
    simp only [dndLoop, List.takeWhile_nil, List.dropWhile_nil, List.append_nil]
    split
    · simp [wordsBy]
    · simp [wordsBy]
  | succ n ih =>
    intro s hs hb cur
    cases s with
    | nil =>
      simp only [dndLoop, List.takeWhile_nil, List.dropWhile_nil, List.append_nil]
      split
      · simp [wordsBy]
      · simp [wordsBy]
    | cons c rest =>
      have hb' : noBrace rest = true := by
        unfold noBrace at hb ⊢
        rw [List.all_cons, Bool.and_eq_true] at hb
        exact hb.2
      have hc : ¬ c = '{' ∧ ¬ c = '}' := by
        unfold noBrace at hb
        rw [List.all_cons, Bool.and_eq_true, Bool.and_eq_true] at hb
        exact ⟨bne_iff_ne.mp hb.1.1, bne_iff_ne.mp hb.1.2⟩
      have hrest : rest.length ≤ n := by
        simp only [List.length_cons] at hs
        omega
      by_cases hw : pyIsSpace c = true
      · have step : dndLoop (c :: rest) cur false [] =
            (if cur = [] then [] else [cur]) ++ dndLoop rest [] false [] := by
          simp only [dndLoop, List.nil_append]
          rw [if_neg hc.1, if_neg hc.2, if_pos (by simp [hw])]
          exact dndLoop_out rest [] false _
        rw [step, ih rest hrest hb' [], if_pos rfl]
        have hwords : wordsBy pyIsSpace (c :: rest) = wordsBy pyIsSpace rest := by
          simp [wordsBy, hw]
        have htk : (c :: rest).takeWhile (fun d => !pyIsSpace d) = [] := by
          rw [List.takeWhile_cons, if_neg (by simp [hw])]
        have hdp : (c :: rest).dropWhile (fun d => !pyIsSpace d) = c :: rest := by
          rw [List.dropWhile_cons, if_neg (by simp [hw])]
        split
        · rw [hwords]
          simp
        · rw [htk, hdp, List.append_nil, hwords]
          simp
      · have hwf : pyIsSpace c = false := by
          revert hw
          cases pyIsSpace c <;> simp
        have step : dndLoop (c :: rest) cur false [] =
            dndLoop rest (cur ++ [c]) false [] := by
          simp only [dndLoop]
          rw [if_neg hc.1, if_neg hc.2, if_neg (by simp [hwf])]
        rw [step, ih rest hrest hb' (cur ++ [c]), if_neg (by simp)]
        have htk : (c :: rest).takeWhile (fun d => !pyIsSpace d) =
            c :: rest.takeWhile (fun d => !pyIsSpace d) := by
          rw [List.takeWhile_cons, if_pos (by simp [hwf])]
        have hdp : (c :: rest).dropWhile (fun d => !pyIsSpace d) =
            rest.dropWhile (fun d => !pyIsSpace d) := by
          rw [List.dropWhile_cons, if_pos (by simp [hwf])]
        split
        · rename_i hcur
          subst hcur
          simp [wordsBy, hwf]
        · rw [htk, hdp]
          simp [List.append_assoc]

lemma pyStrip_subset (s : Str) : ∀ x ∈ pyStrip s, x ∈ s := by
  intro x hx
  unfold pyStrip at hx
  rw [List.mem_reverse] at hx
  have h1 := (List.dropWhile_sublist pyIsSpace).subset hx
  rw [List.mem_reverse] at h1
  exact (List.dropWhile_sublist pyIsSpace).subset h1

lemma noBrace_pyStrip (s : Str) (hb : noBrace s = true) : noBrace (pyStrip s) = true := by
  unfold noBrace at hb ⊢
  rw [List.all_eq_true] at hb ⊢
  intro x hx
  exact hb x (pyStrip_subset s x hx)

lemma noBrace_split (s : Str) (hb : noBrace s = true) :
    split_dnd_files s = (wordsBy pyIsSpace s).map unescape := by
  unfold split_dnd_files
  split
  · rename_i hnil
    subst hnil
    simp [wordsBy]
  · rw [dndLoop_noBrace (pyStrip s).length (pyStrip s) le_rfl (noBrace_pyStrip s hb) [],
      if_pos rfl, wordsBy_pyStrip]

lemma dndLoop_open (rest cur : Str) (b : Bool) (out : List Str) :
    dndLoop ('{' :: rest) cur b out = dndLoop rest [] true out := by
  simp [dndLoop]

lemma dndLoop_close (rest cur : Str) (b : Bool) (out : List Str) :
    dndLoop ('}' :: rest) cur b out =
      dndLoop rest [] false (if cur = [] then out else out ++ [cur]) := by
  simp [dndLoop]

lemma dndLoop_ws_false (c : Char) (rest cur : Str) (out : List Str)
    (hc1 : ¬ c = '{') (hc2 : ¬ c = '}') (hw : pyIsSpace c = true) :
    dndLoop (c :: rest) cur false out =
      dndLoop rest [] false (if cur = [] then out else out ++ [cur]) := by
  simp [dndLoop, hc1, hc2, hw]

lemma dndLoop_acc_false (c : Char) (rest cur : Str) (out : List Str)
    (hc1 : ¬ c = '{') (hc2 : ¬ c = '}') (hw : pyIsSpace c = false) :
    dndLoop (c :: rest) cur false out = dndLoop rest (cur ++ [c]) false out := by
  simp [dndLoop, hc1, hc2, hw]

lemma dndLoop_acc_true (c : Char) (rest cur : Str) (out : List Str)
    (hc1 : ¬ c = '{') (hc2 : ¬ c = '}') :
    dndLoop (c :: rest) cur true out = dndLoop rest (cur ++ [c]) true out := by
  simp [dndLoop, hc1, hc2]

lemma amendedSplit_nil : amendedSplit [] = [] := by
  simp [amendedSplit]

lemma amendedSplit_open (rest : Str) :
    amendedSplit ('{' :: rest) =
      (if afterLastOpen (rest.takeWhile (fun d => ¬ d = '}')) = [] then []
       else [afterLastOpen (rest.takeWhile (fun d => ¬ d = '}'))]) ++
        amendedSplit ((rest.dropWhile (fun d => ¬ d = '}')).drop 1) := by
  simp [amendedSplit]

lemma amendedSplit_close (rest : Str) : amendedSplit ('}' :: rest) = amendedSplit rest := by
  simp [amendedSplit]

lemma amendedSplit_ws (c : Char) (rest : Str)
    (hc1 : ¬ c = '{') (hc2 : ¬ c = '}') (hw : pyIsSpace c = true) :
    amendedSplit (c :: rest) = amendedSplit rest := by
  simp [amendedSplit, hc1, hc2, hw]

lemma amendedSplit_run (c : Char) (rest : Str)
    (hc1 : ¬ c = '{') (hc2 : ¬ c = '}') (hw : pyIsSpace c = false) :
    amendedSplit (c :: rest) =
      (if (rest.dropWhile isRunChar).head? = some '{'
       then amendedSplit (rest.dropWhile isRunChar)
       else (c :: rest.takeWhile isRunChar) :: amendedSplit (rest.dropWhile isRunChar)) := by
  simp [amendedSplit, hc1, hc2, hw]

lemma isRunChar_true (c : Char) (hc1 : ¬ c = '{') (hc2 : ¬ c = '}')
    (hw : pyIsSpace c = false) : isRunChar c = true := by
  simp [isRunChar, hc1, hc2, hw]

lemma isRunChar_false_of_ws (c : Char) (hw : pyIsSpace c = true) : isRunChar c = false := by
  simp [isRunChar, hw]

lemma takeWhile_all (p : Char → Bool) (l : Str) (h : ∀ x ∈ l, p x = true) :
    l.takeWhile p = l := by
  induction l with
  | nil => rfl
  | cons a t ih =>
    rw [List.takeWhile_cons, if_pos (h a (List.mem_cons_self a t)),
      ih (fun x hx => h x (List.mem_cons_of_mem a hx))]

lemma afterLastOpen_no_open (s : Str) (h : ¬ '{' ∈ s) : afterLastOpen s = s := by
  unfold afterLastOpen
  rw [takeWhile_all _ s.reverse, List.reverse_reverse]
  intro x hx
  rw [List.mem_reverse] at hx
  simp only [decide_eq_true_eq]
  intro he
  rw [he] at hx
  exact h hx

lemma afterLastOpen_append (a b : Str) : afterLastOpen (a ++ '{' :: b) = afterLastOpen b := by
  unfold afterLastOpen
  have h1 : (a ++ '{' :: b).reverse = b.reverse ++ '{' :: a.reverse := by
    rw [List.reverse_append, List.reverse_cons]
    simp [List.append_assoc]
  rw [h1, List.takeWhile_append]
  split
  · rename_i hlen
    have h2 : b.reverse.takeWhile (fun d => ¬ d = '{') = b.reverse :=
      (List.takeWhile_prefix _).sublist.eq_of_length hlen
    rw [List.takeWhile_cons, if_neg (by simp), List.append_nil, h2]
  · rfl

lemma head?_ne_open (c : Char) (rest : Str) (hc : ¬ c = '{') :
    ¬ ((c :: rest).head? = some '{') := by
  rw [List.head?_cons]
  intro h
  injection h with h
  exact hc h

lemma dnd_amended_base :
    (dndLoop [] [] false [] = amendedSplit []) ∧
    (∀ cur : Str, ¬ cur = [] → dndLoop [] cur false [] =
      (if (List.dropWhile isRunChar []).head? = some '{'
       then amendedSplit (List.dropWhile isRunChar [])
       else (cur ++ List.takeWhile isRunChar []) :: amendedSplit (List.dropWhile isRunChar []))) ∧
    (∀ cur : Str, ¬ '{' ∈ cur → dndLoop [] cur true [] =
      (if afterLastOpen (cur ++ List.takeWhile (fun d => ¬ d = '}') []) = [] then []
       else [afterLastOpen (cur ++ List.takeWhile (fun d => ¬ d = '}') [])]) ++
        amendedSplit ((List.dropWhile (fun d => ¬ d = '}') []).drop 1)) := by
  refine ⟨?_, ?_, ?_⟩
  · simp [dndLoop, amendedSplit_nil]
  · intro cur hcur
    simp only [dndLoop, List.dropWhile_nil, List.takeWhile_nil, List.append_nil,
      List.head?_nil, List.nil_append]
    rw [if_neg hcur, if_neg (by simp), amendedSplit_nil]
  · intro cur hcur
    simp only [dndLoop, List.dropWhile_nil, List.takeWhile_nil, List.append_nil,
      List.drop_nil, List.nil_append]
    rw [afterLastOpen_no_open cur hcur, amendedSplit_nil, List.append_nil]

lemma dnd_amended_main : ∀ n : Nat, ∀ s : Str, s.length ≤ n →
    (dndLoop s [] false [] = amendedSplit s) ∧
    (∀ cur : Str, ¬ cur = [] → dndLoop s cur false [] =
      (if (s.dropWhile isRunChar).head? = some '{'
       then amendedSplit (s.dropWhile isRunChar)
       else (cur ++ s.takeWhile isRunChar) :: amendedSplit (s.dropWhile isRunChar))) ∧
    (∀ cur : Str, ¬ '{' ∈ cur → dndLoop s cur true [] =
      (if afterLastOpen (cur ++ s.takeWhile (fun d => ¬ d = '}')) = [] then []
       else [afterLastOpen (cur ++ s.takeWhile (fun d => ¬ d = '}'))]) ++
        amendedSplit ((s.dropWhile (fun d => ¬ d = '}')).drop 1)) := by
  intro n
  induction n with
  | zero =>
    intro s hs
    have h0 : s = [] := List.length_eq_zero.mp (Nat.le_zero.mp hs)
    subst h0
    exact dnd_amended_base
  | succ n ih =>
    intro s hs
    cases s with
    | nil => exact dnd_amended_base
    | cons c rest =>
      have hrest : rest.length ≤ n := by
        simp only [List.length_cons] at hs
        omega
      obtain ⟨ih1, ih2, ih3⟩ := ih rest hrest
      by_cases hbo : c = '{'
      · subst hbo
        have h3 := ih3 [] (by simp)
        rw [List.nil_append] at h3
        have htk : List.takeWhile (fun d => ¬ d = '}') ('{' :: rest) =
            '{' :: List.takeWhile (fun d => ¬ d = '}') rest := by
          rw [List.takeWhile_cons, if_pos (by simp)]
        have hdp : List.dropWhile (fun d => ¬ d = '}') ('{' :: rest) =
            List.dropWhile (fun d => ¬ d = '}') rest := by
          rw [List.dropWhile_cons, if_pos (by simp)]
        refine ⟨?_, ?_, ?_⟩
        · rw [dndLoop_open, amendedSplit_open]
          exact h3
        · intro cur hcur
          have hafter : List.dropWhile isRunChar ('{' :: rest) = '{' :: rest := by
            rw [List.dropWhile_cons, if_neg (by simp [isRunChar])]
          rw [dndLoop_open, hafter, if_pos (by rw [List.head?_cons]), amendedSplit_open]
          exact h3
        · intro cur hcur
          rw [dndLoop_open, h3, htk, hdp, afterLastOpen_append cur _]
      · by_cases hbc : c = '}'
        · subst hbc
          have htk : List.takeWhile (fun d => ¬ d = '}') ('}' :: rest) = [] := by
            rw [List.takeWhile_cons, if_neg (by simp)]
          have hdp : List.dropWhile (fun d => ¬ d = '}') ('}' :: rest) = '}' :: rest := by
            rw [List.dropWhile_cons, if_neg (by simp)]
          have hafter : List.dropWhile isRunChar ('}' :: rest) = '}' :: rest := by
            rw [List.dropWhile_cons, if_neg (by simp [isRunChar])]
          have htkr : List.takeWhile isRunChar ('}' :: rest) = [] := by
            rw [List.takeWhile_cons, if_neg (by simp [isRunChar])]
          refine ⟨?_, ?_, ?_⟩
          · rw [dndLoop_close, if_pos rfl, amendedSplit_close]
            exact ih1
          · intro cur hcur
            rw [dndLoop_close, if_neg hcur, List.nil_append,
              dndLoop_out rest [] false [cur], ih1, hafter, htkr,
              if_neg (head?_ne_open '}' rest (by decide)), List.append_nil,
              amendedSplit_close]
            rfl
          · intro cur hcur
            rw [dndLoop_close, htk, hdp, List.append_nil,
              afterLastOpen_no_open cur hcur]
            simp only [List.drop_succ_cons, List.drop_zero]
            by_cases hcn : cur = []
            · rw [if_pos hcn, if_pos hcn, List.nil_append]
              exact ih1
            · rw [if_neg hcn, if_neg hcn, List.nil_append,
                dndLoop_out rest [] false [cur], ih1]
        · have htk3 : List.takeWhile (fun d => ¬ d = '}') (c :: rest) =
              c :: List.takeWhile (fun d => ¬ d = '}') rest := by
            rw [List.takeWhile_cons, if_pos (by simp [hbc])]
          have hdp3 : List.dropWhile (fun d => ¬ d = '}') (c :: rest) =
              List.dropWhile (fun d => ¬ d = '}') rest := by
            rw [List.dropWhile_cons, if_pos (by simp [hbc])]
          have hS3 : ∀ cur : Str, ¬ '{' ∈ cur → dndLoop (c :: rest) cur true [] =
              (if afterLastOpen (cur ++ (c :: rest).takeWhile (fun d => ¬ d = '}')) = []
               then []
               else [afterLastOpen (cur ++ (c :: rest).takeWhile (fun d => ¬ d = '}'))]) ++
                amendedSplit (((c :: rest).dropWhile (fun d => ¬ d = '}')).drop 1) := by
            intro cur hcur
            have hcur' : ¬ '{' ∈ cur ++ [c] := by
              intro hx
              rcases List.mem_append.mp hx with hx1 | hx2
              · exact hcur hx1
              · rw [List.mem_singleton] at hx2
                exact hbo hx2.symm
            rw [dndLoop_acc_true c rest cur [] hbo hbc, ih3 (cur ++ [c]) hcur',
              htk3, hdp3]
            simp only [List.append_assoc, List.singleton_append]
          by_cases hw : pyIsSpace c = true
          · have hafter : List.dropWhile isRunChar (c :: rest) = c :: rest := by
              rw [List.dropWhile_cons, if_neg (by simp [isRunChar_false_of_ws c hw])]
            have htkr : List.takeWhile isRunChar (c :: rest) = [] := by
              rw [List.takeWhile_cons, if_neg (by simp [isRunChar_false_of_ws c hw])]
            refine ⟨?_, ?_, hS3⟩
            · rw [dndLoop_ws_false c rest [] [] hbo hbc hw, if_pos rfl, ih1,
                amendedSplit_ws c rest hbo hbc hw]
            · intro cur hcur
              rw [dndLoop_ws_false c rest cur [] hbo hbc hw, if_neg hcur, List.nil_append,
                dndLoop_out rest [] false [cur], ih1, hafter, htkr,
                if_neg (head?_ne_open c rest hbo), List.append_nil,
                amendedSplit_ws c rest hbo hbc hw]
              rfl
          · have hwf : pyIsSpace c = false := by
              revert hw
              cases pyIsSpace c <;> simp
            have hrc : isRunChar c = true := isRunChar_true c hbo hbc hwf
            have hafter : List.dropWhile isRunChar (c :: rest) =
                List.dropWhile isRunChar rest := by
              rw [List.dropWhile_cons, if_pos hrc]
            have htkr : List.takeWhile isRunChar (c :: rest) =
                c :: List.takeWhile isRunChar rest := by
              rw [List.takeWhile_cons, if_pos hrc]
            refine ⟨?_, ?_, hS3⟩
            · rw [dndLoop_acc_false c rest [] [] hbo hbc hwf, List.nil_append,
                ih2 [c] (by simp), amendedSplit_run c rest hbo hbc hwf]
              simp only [List.singleton_append]
            · intro cur hcur
              rw [dndLoop_acc_false c rest cur [] hbo hbc hwf,
                ih2 (cur ++ [c]) (by simp), hafter, htkr]
              simp only [List.append_assoc, List.singleton_append]

lemma split_eq_amended (s : Str) :
    split_dnd_files s = (amendedSplit (pyStrip s)).map unescape := by
  unfold split_dnd_files
  split
  · rename_i h
    subst h
    rw [pyStrip_nil, amendedSplit_nil]
    rfl
  · rw [(dnd_amended_main (pyStrip s).length (pyStrip s) le_rfl).1]

/-- C10, counterexample: four concrete payloads on which the splitter differs
from the claim's token rules (formalised verbatim by `claimSplit`): the run
pending when an opening brace is reached is discarded (`"a\x7bb\x7d"` gives
`["b"]`, not `["a","b"]`); a closing brace outside a group ends the current
run (`"a\x7db"` gives `["a","b"]`, not the maximal non-whitespace run); a
token's doubled backslashes are collapsed, so the emitted token is not the
verbatim run; and an opening brace inside a group restarts the group rather
than joining the single-token group (`"\x7ba\x7bb\x7d"` gives `["b"]`). -/
theorem C10_counterexample :
    (claimSplit (str "a\x7bb\x7d") = [str "a", str "b"] ∧
      split_dnd_files (str "a\x7bb\x7d") = [str "b"]) ∧
    (claimSplit (str "a\x7db") = [str "a\x7db"] ∧
      split_dnd_files (str "a\x7db") = [str "a", str "b"]) ∧
    (claimSplit (str "a\\\\b") = [str "a\\\\b"] ∧
      split_dnd_files (str "a\\\\b") = [str "a\\b"]) ∧
    (claimSplit (str "\x7ba\x7bb\x7d") = [str "a\x7bb"] ∧
      split_dnd_files (str "\x7ba\x7bb\x7d") = [str "b"]) := by
  decide

/-- C10, amended: the splitter first discards leading and trailing whitespace
and returns the empty list for every empty or whitespace-only payload.  Each
brace-delimited group becomes a single token, which may contain whitespace; an
empty group contributes no token, an opening brace inside a group restarts it
(discarding what was accumulated before it), and an unterminated group is
closed by the end of the payload.  Outside groups, maximal runs of
non-whitespace non-brace characters become tokens, except that a run
immediately followed by an opening brace is discarded; a closing brace
outside a group merely ends the current run.  Finally, doubled backslashes in
every token are collapsed to single backslashes.  `amendedSplit` states these
rules as a recursive-descent tokenizer, and the code's character loop agrees
with it on every payload, mixed ones included; in particular on brace-free
payloads the tokens are exactly the maximal non-whitespace runs (`wordsBy`),
and a payload that is a single brace-free group yields that group as its only
token. -/
theorem C10_token_rules :
    (∀ s : Str, s.all pyIsSpace = true → split_dnd_files s = []) ∧
    (∀ s : Str, split_dnd_files s = (amendedSplit (pyStrip s)).map unescape) ∧
    (∀ grp : Str, noBrace grp = true →
      split_dnd_files (('{' :: grp) ++ ['}']) = if grp = [] then [] else [unescape grp]) ∧
    (∀ s : Str, noBrace s = true →
      split_dnd_files s = (wordsBy pyIsSpace s).map unescape) :=
  ⟨allspace_split, split_eq_amended, brace_group_split, noBrace_split⟩

/-- Witness for C10_token_rules at concrete inputs, including a mixed payload
with a braced group, a bare run and trailing whitespace. -/
theorem C10_token_rules_witness :
    split_dnd_files (str " \t ") = [] ∧
    split_dnd_files (str "\x7bC:/My Files/x.log\x7d y.log ") =
      (amendedSplit (pyStrip (str "\x7bC:/My Files/x.log\x7d y.log "))).map unescape ∧
    split_dnd_files (('{' :: str "a b") ++ ['}']) =
      (if str "a b" = [] then [] else [unescape (str "a b")]) ∧
    split_dnd_files (str " a  b ") = (wordsBy pyIsSpace (str " a  b ")).map unescape :=
  ⟨C10_token_rules.1 (str " \t ") (by decide),
   C10_token_rules.2.1 (str "\x7bC:/My Files/x.log\x7d y.log "),
   C10_token_rules.2.2.1 (str "a b") (by decide),
   C10_token_rules.2.2.2 (str " a  b ") (by decide)⟩

end AcarsGui
